import Mathlib

/-!
Verification of the live SSE fan-out subsystem of the Q-profile vending
console (src/app/app.py, with the alternate revision src/sse_test_server.py).

The Python module keeps three module-level pieces of shared state:

  * `sse_events`      : the bounded in-memory event log (app.py line 27),
  * `sse_connections` : the list of per-connection queues (line 25),
  * `sse_lock`        : the lock guarding both (line 26).

The embedding below is sequential: every claim concerns either a single
critical section (`broadcast_sse` runs entirely under `sse_lock`) or a
single generator (`event_stream`), so state is passed explicitly and the
lock is not modelled.  Wall-clock time (`time.time()`) is passed in as a
natural number of seconds.
-/

namespace QPV

/-- One element of the Python `sse_events` list: the dictionary built at
app.py lines 55-60, `{'event': event, 'data': data, 'timestamp': time.time(),
'id': len(sse_events)}`.  The JSON payload is kept opaque as a string. -/
structure EventEntry where
  event : String
  data : String
  timestamp : Nat
  id : Nat
deriving DecidableEq

/-- One element of `sse_connections`: a `queue.Queue` created per connection
(app.py line 94).  `id` stands for the Python object identity used by
`sse_connections.remove`; `queue` is its FIFO content (put at the back, get
at the front); `alive` models whether `put_nowait` succeeds — the bare
`except` at app.py line 78 treats a failing push as a dead connection. -/
structure Connection where
  id : Nat
  queue : List EventEntry
  alive : Bool
deriving DecidableEq

/-- The module-level shared state of app.py: `sse_events` (line 27) and
`sse_connections` (line 25). -/
structure World where
  sse_events : List EventEntry
  sse_connections : List Connection
deriving DecidableEq

/-- `queue.Queue.put_nowait` as the fan-out loop uses it (app.py line 76):
appends to the connection's queue, or raises (modelled as `Except.error`)
when the connection's receiving side is gone (`alive = false`). -/
def put_nowait (c : Connection) (e : EventEntry) : Except Unit Connection :=
  if c.alive then Except.ok { c with queue := c.queue ++ [e] } else Except.error ()

/-- The successful effect of `put_nowait`: the event appended to the queue. -/
def pushConn (e : EventEntry) (c : Connection) : Connection :=
  { c with queue := c.queue ++ [e] }

/-- The fan-out loop of `broadcast_sse` (app.py lines 72-80):
`for i, connection in enumerate(sse_connections): try: connection.put_nowait(...)
except: dead_connections.append(i)`.  Returns the connection list after the
pass (queues of live connections extended, dead ones untouched) together
with the `dead_connections` index list, in ascending order as the loop
builds it.  `i` is the running `enumerate` index. -/
def markLoop (e : EventEntry) (i : Nat) : List Connection → List Connection × List Nat
  | [] => ([], [])
  | c :: rest =>
    match put_nowait c e with
    | Except.ok c2 =>
      let r := markLoop e (i + 1) rest
      (c2 :: r.1, r.2)
    | Except.error _ =>
      let r := markLoop e (i + 1) rest
      (c :: r.1, i :: r.2)

/-- The removal sweep of `broadcast_sse` (app.py lines 83-85):
`for i in reversed(dead_connections): sse_connections.pop(i)`. -/
def sweepDead (conns : List Connection) (dead : List Nat) : List Connection :=
  dead.reverse.foldl (fun cs i => cs.eraseIdx i) conns

/-- `broadcast_sse(event, data)` (app.py lines 49-85).  Builds the event
entry with `'id': len(sse_events)` (line 59), appends it to the log, evicts
the oldest entry when the log exceeds 100 (lines 67-68), then fans out to
every connection, removing the dead ones after the pass.  The result type
`Except Unit World` records whether any exception escapes to the caller:
the per-connection `try/except` lives inside `markLoop`, and nothing else
in the body can raise. -/
def broadcast_sse (w : World) (event data : String) (now : Nat) : Except Unit World := do
  let entry : EventEntry := { event := event, data := data, timestamp := now, id := w.sse_events.length }
  let events1 := w.sse_events ++ [entry]
  let events2 := if 100 < events1.length then events1.drop 1 else events1
  let marked := markLoop entry 0 w.sse_connections
  let conns2 := sweepDead marked.1 marked.2
  return { sse_events := events2, sse_connections := conns2 }

/-- The state `broadcast_sse` leaves behind (it never raises, so the
`Except.error` branch is unreachable; see the C3 theorem). -/
def broadcastRun (w : World) (event data : String) (now : Nat) : World :=
  match broadcast_sse w event data now with
  | Except.ok w2 => w2
  | Except.error _ => w

/-- The log and registry after `n` publishes of `user_created` events into a
fresh process state (no connections), the `k`-th publish happening at time
`k - 1`. -/
def publishN : Nat → World
  | 0 => { sse_events := [], sse_connections := [] }
  | n + 1 => broadcastRun (publishN n) "user_created" "payload" n

/-- The pure effect of one `broadcast_sse` call on the `sse_events` list:
append with `id = len(sse_events)`, then `pop(0)` when the length exceeds
100 (app.py lines 55-68). -/
def appendEvict (l : List EventEntry) (e d : String) (t : Nat) : List EventEntry :=
  let entry : EventEntry := { event := e, data := d, timestamp := t, id := l.length }
  let l1 := l ++ [entry]
  if 100 < l1.length then l1.drop 1 else l1

theorem broadcastRun_events (w : World) (e d : String) (t : Nat) :
    (broadcastRun w e d t).sse_events = appendEvict w.sse_events e d t := rfl

theorem markLoop_fst (e : EventEntry) (i : Nat) (cs : List Connection) :
    (markLoop e i cs).1 = cs.map (fun c => if c.alive then pushConn e c else c) := by
  induction cs generalizing i with
  | nil => rfl
  | cons c rest ih =>
    by_cases hc : c.alive <;>
      simp [markLoop, put_nowait, hc, ih, pushConn]

theorem markLoop_snd_shift (e : EventEntry) (i : Nat) (cs : List Connection) :
    (markLoop e i cs).2 = ((markLoop e 0 cs).2).map (· + i) := by
  induction cs generalizing i with
  | nil => rfl
  | cons c rest ih =>
    have hf : (fun x => x + (i + 1)) = ((fun x => x + i) ∘ fun x => x + 1) := by
      funext x
      simp only [Function.comp_apply]
      omega
    cases hc : c.alive with
    | true =>
      simp only [markLoop, put_nowait, hc, if_true]
      rw [ih (i + 1), ih 1, List.map_map, ← hf]
    | false =>
      simp only [markLoop, put_nowait, hc, Bool.false_eq_true, if_false]
      simp only [List.map_cons]
      rw [ih (i + 1), ih 1, List.map_map, ← hf]
      simp

theorem foldl_eraseIdx_shift (js : List Nat) (c : Connection) (l : List Connection) :
    List.foldl (fun cs i => cs.eraseIdx i) (c :: l) (js.map (· + 1)) =
      c :: List.foldl (fun cs i => cs.eraseIdx i) l js := by
  induction js generalizing l with
  | nil => rfl
  | cons j js ih =>
    simp only [List.map_cons, List.foldl_cons]
    rw [show (c :: l).eraseIdx (j + 1) = c :: l.eraseIdx j from rfl, ih]

/-- The two-phase fan-out of `broadcast_sse` — push to every live queue,
then pop the marked indices in reverse — leaves exactly the live
connections, each with the event appended. -/
theorem sweep_mark (e : EventEntry) (cs : List Connection) :
    sweepDead (markLoop e 0 cs).1 (markLoop e 0 cs).2 =
      (cs.filter (fun c => c.alive)).map (pushConn e) := by
  induction cs with
  | nil => rfl
  | cons c rest ih =>
    have hm1 : (markLoop e 1 rest).1 = (markLoop e 0 rest).1 := by
      rw [markLoop_fst, markLoop_fst]
    have hrest : List.foldl (fun cs i => cs.eraseIdx i) (markLoop e 0 rest).1
        ((markLoop e 0 rest).2).reverse =
        (rest.filter (fun c => c.alive)).map (pushConn e) := ih
    cases hc : c.alive with
    | true =>
      simp only [markLoop, put_nowait, hc, if_true, sweepDead]
      rw [markLoop_snd_shift e 1 rest, ← List.map_reverse, foldl_eraseIdx_shift,
        hm1, hrest, List.filter_cons]
      simp [pushConn, hc]
    | false =>
      simp only [markLoop, put_nowait, hc, Bool.false_eq_true, if_false, sweepDead]
      rw [markLoop_snd_shift e 1 rest, List.reverse_cons, ← List.map_reverse,
        List.foldl_append, foldl_eraseIdx_shift, hm1]
      simp only [List.foldl_cons, List.foldl_nil, List.eraseIdx_cons_zero]
      rw [hrest, List.filter_cons]
      simp [hc]

theorem publishN_conns (n : Nat) : (publishN n).sse_connections = [] := by
  induction n with
  | zero => rfl
  | succ n ih =>
    show (broadcastRun (publishN n) "user_created" "payload" n).sse_connections = []
    have : (broadcastRun (publishN n) "user_created" "payload" n).sse_connections =
        sweepDead (markLoop _ 0 (publishN n).sse_connections).1
          (markLoop _ 0 (publishN n).sse_connections).2 := rfl
    rw [this, ih]
    rfl

theorem publishN_succ_events (n : Nat) :
    (publishN (n + 1)).sse_events =
      appendEvict (publishN n).sse_events "user_created" "payload" n := rfl

/-- Before the 100-entry bound is reached, the `id` fields of the retained
log are `0, 1, ..., n-1`: strictly increasing with no gaps. -/
theorem publishN_ids_le (n : Nat) (h : n ≤ 100) :
    (publishN n).sse_events.map EventEntry.id = List.range n := by
  induction n with
  | zero => rfl
  | succ n ih =>
    have hn : n ≤ 100 := Nat.le_of_succ_le h
    have hids := ih hn
    have hlen : (publishN n).sse_events.length = n := by
      have := congrArg List.length hids
      simpa using this
    rw [publishN_succ_events, appendEvict]
    simp only [hlen]
    have hcond : ¬ (100 < ((publishN n).sse_events ++
        [({ event := "user_created", data := "payload", timestamp := n, id := n } : EventEntry)]).length) := by
      simp [hlen]
      omega
    rw [if_neg hcond]
    simp [hids, List.range_succ]

theorem publishN_len_le (n : Nat) (h : n ≤ 100) :
    (publishN n).sse_events.length = n := by
  have := congrArg List.length (publishN_ids_le n h)
  simpa using this

/-- Once eviction has begun (publish number `101 + k`), the retained `id`s
are `k+1, ..., 100` followed by `k` repeats of `100`: every append past the
bound assigns `id = len(sse_events) = 100`. -/
theorem publishN_ids_evict (k : Nat) (hk : k ≤ 100) :
    (publishN (101 + k)).sse_events.map EventEntry.id =
      List.range' (k + 1) (100 - k) ++ List.replicate k 100 := by
  induction k with
  | zero =>
    have hids := publishN_ids_le 100 (le_refl 100)
    have hlen := publishN_len_le 100 (le_refl 100)
    rw [show (101 : Nat) + 0 = 100 + 1 from rfl, publishN_succ_events, appendEvict]
    simp only [hlen]
    have hcond : (100 : Nat) < ((publishN 100).sse_events ++
        [({ event := "user_created", data := "payload", timestamp := 100, id := 100 } : EventEntry)]).length := by
      simp [hlen]
    rw [if_pos hcond]
    rw [List.map_drop]
    simp only [List.map_append, hids, List.map_cons, List.map_nil]
    rw [← List.range_succ, List.range_eq_range', List.range'_succ]
    simp
  | succ k ih =>
    have hk' : k ≤ 100 := Nat.le_of_succ_le hk
    have hids := ih hk'
    have hlen : (publishN (101 + k)).sse_events.length = 100 := by
      have := congrArg List.length hids
      simp at this
      omega
    rw [show 101 + (k + 1) = (101 + k) + 1 from rfl, publishN_succ_events, appendEvict]
    simp only [hlen]
    have hcond : (100 : Nat) < ((publishN (101 + k)).sse_events ++
        [({ event := "user_created", data := "payload", timestamp := 101 + k, id := 100 } : EventEntry)]).length := by
      simp [hlen]
    rw [if_pos hcond]
    rw [List.map_drop]
    simp only [List.map_append, hids, List.map_cons, List.map_nil]
    have hsplit : (100 : Nat) - k = (100 - (k + 1)) + 1 := by omega
    rw [hsplit, List.range'_succ]
    simp only [List.cons_append, List.drop_succ_cons, List.drop_zero]
    rw [List.append_assoc, ← List.replicate_succ' k 100]

/-- Invariant carried across every publish: retained ids are non-decreasing
and the last id never exceeds the log length (each append assigns
`id = len`, which dropping the head can only leave equal). -/
def LogInv (l : List EventEntry) : Prop :=
  List.Chain' (· ≤ ·) (l.map EventEntry.id) ∧
    ∀ x ∈ (l.map EventEntry.id).getLast?, x ≤ l.length

theorem logInv_appendEvict (l : List EventEntry) (e d : String) (t : Nat)
    (h : LogInv l) : LogInv (appendEvict l e d t) := by
  obtain ⟨hchain, hlast⟩ := h
  have hchain1 : List.Chain' (· ≤ ·) (l.map EventEntry.id ++ [l.length]) := by
    rw [List.chain'_append]
    refine ⟨hchain, List.chain'_singleton _, ?_⟩
    intro x hx y hy
    simp only [List.head?_cons, Option.mem_def, Option.some.injEq] at hy
    subst hy
    exact hlast x hx
  rw [appendEvict]
  by_cases hcond : 100 < (l ++
      [({ event := e, data := d, timestamp := t, id := l.length } : EventEntry)]).length
  · rw [if_pos hcond]
    have hne : l ≠ [] := by
      intro hnil
      subst hnil
      simp at hcond
    obtain ⟨a, l', rfl⟩ := List.exists_cons_of_ne_nil hne
    constructor
    · have h2 := hchain1.tail
      simp only [List.map_cons, List.cons_append, List.tail_cons] at h2
      simpa using h2
    · intro x hx
      simp only [List.cons_append, List.drop_succ_cons, List.drop_zero, List.map_append,
        List.map_cons, List.map_nil, List.getLast?_concat, Option.mem_def,
        Option.some.injEq] at hx
      subst hx
      simp
  · rw [if_neg hcond]
    constructor
    · simpa using hchain1
    · intro x hx
      simp only [List.map_append, List.map_cons, List.map_nil, List.getLast?_concat,
        Option.mem_def, Option.some.injEq] at hx
      subst hx
      simp

theorem appendEvict_last (l : List EventEntry) (e d : String) (t : Nat) :
    ((appendEvict l e d t).map EventEntry.id).getLast? = some l.length := by
  rw [appendEvict]
  by_cases hcond : 100 < (l ++
      [({ event := e, data := d, timestamp := t, id := l.length } : EventEntry)]).length
  · rw [if_pos hcond]
    have hne : l ≠ [] := by
      intro hnil
      subst hnil
      simp at hcond
    obtain ⟨a, l', rfl⟩ := List.exists_cons_of_ne_nil hne
    simp
  · rw [if_neg hcond]
    simp

theorem publishN_last (n : Nat) :
    ((publishN (n + 1)).sse_events.map EventEntry.id).getLast?
      = some ((publishN n).sse_events.length) := by
  rw [publishN_succ_events]
  exact appendEvict_last _ _ _ _

theorem publishN_logInv (n : Nat) : LogInv (publishN n).sse_events := by
  induction n with
  | zero =>
    constructor
    · exact List.chain'_nil
    · intro x hx
      simp [publishN] at hx
  | succ n ih =>
    rw [publishN_succ_events]
    exact logInv_appendEvict _ _ _ _ ih

/-- Modelled from the spec: `slice_since(index)` of the Event Log contract
(spec section 4.1) — "returns all retained events with sequence > index, in
increasing order; returns an empty sequence if index is at or beyond the
latest retained event".  app.py exposes no such accessor (its replay and
fallback paths read `sse_events` positionally), so the observation is
modelled as a filter over the retained list, keeping the stored order. -/
def sliceSince (idx : Nat) (log : List EventEntry) : List EventEntry :=
  log.filter (fun e => idx < e.id)

set_option maxRecDepth 10000

/-- C2 counterexample.  The claim asserts strictly increasing sequence
numbers, each append assigning the next one, "including publishes occurring
after the size bound (N=100) has been reached".  In the code the id field is
`len(sse_events)` at append time, which is capped by eviction: the 101st and
the 102nd publish both receive id 100, and after 102 publishes the two
newest retained events carry the same id, so the retained ids are not
strictly increasing. -/
theorem C2_counterexample :
    ((publishN 101).sse_events.map EventEntry.id).getLast? = some 100 ∧
    ((publishN 102).sse_events.map EventEntry.id).getLast? = some 100 ∧
    ¬ List.Chain' (· < ·) ((publishN 102).sse_events.map EventEntry.id) := by
  refine ⟨by decide, by decide, ?_⟩
  intro h
  have h2 := h.drop 98
  have h3 : (((publishN 102).sse_events.map EventEntry.id).drop 98) = [100, 100] := by
    decide
  rw [h3] at h2
  exact absurd (List.chain'_pair.mp h2) (by decide)

/-- C2 amended: the retained ids are strictly increasing with no gaps
(`0, 1, ..., n-1`) only while at most `N = 100` events have been published;
each append assigns `id = len(sse_events)` — not previous id + 1 — so once
eviction begins every new event receives id 100 and the retained ids are
merely non-decreasing. -/
theorem C2_amended (n : Nat) :
    List.Chain' (· ≤ ·) ((publishN n).sse_events.map EventEntry.id)
    ∧ (n ≤ 100 → (publishN n).sse_events.map EventEntry.id = List.range n)
    ∧ ((publishN (n + 1)).sse_events.map EventEntry.id).getLast?
        = some ((publishN n).sse_events.length) :=
  ⟨(publishN_logInv n).1, publishN_ids_le n, publishN_last n⟩

/-- C3: `broadcast_sse` returns normally for every state of the subscriber
set, dead subscribers included: the only fallible operation in its body,
`put_nowait`, sits inside the per-connection `try/except` (modelled inside
`markLoop`), so no subscriber-side failure is raised out of publish. -/
theorem C3_publish_never_raises (w : World) (event data : String) (now : Nat) :
    ∃ w2, broadcast_sse w event data now = Except.ok w2 :=
  ⟨_, rfl⟩

/-- C4: during the fan-out pass a failing subscriber is only marked: the
pass output keeps every connection (dead ones unchanged, live ones with the
event appended), so one subscriber's failure never prevents delivery to the
others; removal happens only in the sweep after the pass, which leaves
exactly the live subscribers. -/
theorem C4_fanout_isolation (entry : EventEntry) (conns : List Connection) :
    (markLoop entry 0 conns).1
        = conns.map (fun c => if c.alive then pushConn entry c else c)
    ∧ (∀ c ∈ conns, c.alive = false → c ∈ (markLoop entry 0 conns).1)
    ∧ sweepDead (markLoop entry 0 conns).1 (markLoop entry 0 conns).2
        = (conns.filter (fun c => c.alive)).map (pushConn entry) := by
  refine ⟨markLoop_fst entry 0 conns, ?_, sweep_mark entry conns⟩
  intro c hc hdead
  rw [markLoop_fst]
  have hstep : (if c.alive then pushConn entry c else c) = c := by
    rw [hdead]
    simp
  exact hstep ▸ List.mem_map_of_mem _ hc

/-- C5 counterexample.  The claim (instantiated at N=100, M=1) says
`slice_since(0)` after 101 publishes has oldest sequence number M+1 = 2; in
the code ids are 0-based (`id = len(sse_events)` at append), so the oldest
retained id after 101 publishes is 1. -/
theorem C5_counterexample :
    ((sliceSince 0 (publishN 101).sse_events).map EventEntry.id).head? = some 1 ∧
    ¬ ((sliceSince 0 (publishN 101).sse_events).map EventEntry.id).head? = some 2 := by
  exact ⟨by decide, by decide⟩

/-- C5 amended: after N+M publishes (N=100, 0 < M ≤ N) the log retains
exactly the most recent 100 events and `sliceSince 0` returns all of them in
stored order; the ids run M, ..., 100 followed by M-1 repeats of 100 (ids
are 0-based and capped at 100 by eviction), so the oldest retained id is M,
not M+1, and the order is only non-decreasing once M > 1. -/
theorem C5_amended (M : Nat) (h1 : 0 < M) (h2 : M ≤ 100) :
    (publishN (100 + M)).sse_events.length = 100
    ∧ sliceSince 0 (publishN (100 + M)).sse_events = (publishN (100 + M)).sse_events
    ∧ (publishN (100 + M)).sse_events.map EventEntry.id
        = List.range' M (101 - M) ++ List.replicate (M - 1) 100
    ∧ ((publishN (100 + M)).sse_events.map EventEntry.id).head? = some M := by
  obtain ⟨k, rfl⟩ : ∃ k, M = k + 1 := ⟨M - 1, by omega⟩
  have hk : k ≤ 100 := by omega
  have hids := publishN_ids_evict k hk
  have h100 : 100 + (k + 1) = 101 + k := by omega
  rw [h100]
  have harith1 : 101 - (k + 1) = 100 - k := by omega
  have harith2 : k + 1 - 1 = k := by omega
  have hlen : (publishN (101 + k)).sse_events.length = 100 := by
    have := congrArg List.length hids
    simp at this
    omega
  have hpos : ∀ a ∈ (publishN (101 + k)).sse_events, 0 < a.id := by
    intro a ha
    have hmem : a.id ∈ (publishN (101 + k)).sse_events.map EventEntry.id :=
      List.mem_map_of_mem _ ha
    rw [hids] at hmem
    rcases List.mem_append.mp hmem with hr | hr
    · have := (List.mem_range'_1.mp hr).1
      omega
    · have := (List.mem_replicate.mp hr).2
      omega
  refine ⟨hlen, ?_, ?_, ?_⟩
  · rw [sliceSince]
    rw [List.filter_eq_self]
    intro a ha
    simpa using hpos a ha
  · rw [hids, harith1, harith2]
  · rw [hids]
    have hsplit : 100 - k = (99 - k) + 1 := by omega
    rw [hsplit, List.range'_succ]
    simp

/-- C5 witness: the amended claim evaluated at M = 1 (101 publishes). -/
theorem C5_witness :
    0 < 1 ∧ 1 ≤ 100 ∧ (publishN (100 + 1)).sse_events.length = 100 :=
  ⟨by decide, by decide, (C5_amended 1 (by decide) (by decide)).1⟩

/-- The per-connection generator state of `event_stream` (app.py lines
101-160): the connection's queue identity, `last_event_index` (line 109) and
`last_heartbeat` (line 108). -/
structure Session where
  qid : Nat
  lastEventIndex : Nat
  lastHeartbeat : Nat
deriving DecidableEq

/-- One item yielded to the client: the synthetic connected event (line
104), a log-derived event (lines 118, 126, 140), or a heartbeat (line
148). -/
inductive Emission where
  | connected (connId : Nat)
  | ev (e : EventEntry)
  | heartbeat (t : Nat)
deriving DecidableEq

/-- Registration (app.py lines 94-99): a fresh `queue.Queue()` appended to
`sse_connections` under the lock. -/
def registerConn (w : World) (qid : Nat) : World :=
  { w with sse_connections :=
      w.sse_connections ++ [{ id := qid, queue := [], alive := true }] }

/-- The content of the queue object shared between the registry entry and
its session (`connection_queue`). -/
def queueOf (w : World) (qid : Nat) : List EventEntry :=
  match w.sse_connections.find? (fun c => c.id == qid) with
  | some c => c.queue
  | none => []

/-- `connection_queue.get_nowait()`'s effect on the shared queue: the front
element is removed. -/
def popQueue (w : World) (qid : Nat) : World :=
  let conns := w.sse_connections.map
    (fun c => if c.id == qid then { c with queue := c.queue.tail } else c)
  { w with sse_connections := conns }

/-- The history replay of `event_stream` (app.py lines 113-119):
`for i in range(max(0, last_event_index - 10), last_event_index):
if i < len(sse_events): yield sse_events[i]`, where `last_event_index` is
`len(sse_events)` at generator start (line 109), guarded by
`if last_event_index > 0` (line 113). -/
def event_stream_replay (log : List EventEntry) : List EventEntry :=
  if 0 < log.length then
    (List.range' (log.length - 10) (log.length - (log.length - 10))).filterMap
      (fun i => log.get? i)
  else []

/-- One pass of the `while True` loop of `event_stream` (app.py lines
121-153), at wall-clock second `now`: first try `get_nowait` on the private
queue — on success yield that event and `continue` (skipping the fallback
scan and the heartbeat check); otherwise scan `sse_events` from
`last_event_index` (the fallback), then emit a heartbeat when more than 30
seconds have passed since `last_heartbeat`.  Returns the yielded items, the
world (queue possibly popped) and the updated session state. -/
def event_stream_iter (now : Nat) (w : World) (s : Session) :
    List Emission × World × Session :=
  match queueOf w s.qid with
  | e :: _ => ([Emission.ev e], popQueue w s.qid, s)
  | [] =>
    let fb :=
      if s.lastEventIndex < w.sse_events.length then
        (List.range' s.lastEventIndex (w.sse_events.length - s.lastEventIndex)).filterMap
          (fun i => w.sse_events.get? i)
      else []
    let s1 :=
      if s.lastEventIndex < w.sse_events.length then
        { s with lastEventIndex := w.sse_events.length }
      else s
    if 30 < now - s1.lastHeartbeat then
      (fb.map Emission.ev ++ [Emission.heartbeat now], w,
        { s1 with lastHeartbeat := now })
    else (fb.map Emission.ev, w, s1)

/-- The cleanup of `event_stream`'s `finally` block (app.py lines 161-168):
`sse_connections.remove(connection_queue)` removes the first occurrence;
the `except ValueError: pass` makes a removal of an absent queue a no-op. -/
def remove_connection : List Connection → Nat → List Connection
  | [], _ => []
  | c :: rest, qid =>
    if c.id = qid then rest else c :: remove_connection rest qid

/-- The `/events` route handler plus the start of its `event_stream`
generator (app.py lines 87-119): registers a fresh queue, snapshots
`last_event_index = len(sse_events)` and `last_heartbeat = now`, and yields
the synthetic connected event followed by the history replay.  The handler
body never consults the login session — `logged_in` is the caller's session
state, unread. -/
def events_route (logged_in : Bool) (w : World) (qid : Nat) (now : Nat) :
    World × Session × List Emission :=
  let w1 := registerConn w qid
  let s : Session :=
    { qid := qid, lastEventIndex := w1.sse_events.length, lastHeartbeat := now }
  (w1, s, Emission.connected qid :: (event_stream_replay w1.sse_events).map Emission.ev)

/-- Responses of the JSON diagnostic routes. -/
inductive ApiResult where
  | unauthorized
  | status (active_connections : Nat) (total_events : Nat)
      (recent_events : List EventEntry)
deriving DecidableEq

/-- The `/api/sse-status` route (app.py lines 210-221): rejects a caller
whose session has no `logged_in` flag with a 401, otherwise reports the
connection count, event count and the last five events. -/
def sse_status (logged_in : Bool) (w : World) : ApiResult :=
  if logged_in then
    ApiResult.status w.sse_connections.length w.sse_events.length
      (w.sse_events.drop (w.sse_events.length - 5))
  else ApiResult.unauthorized

/-- A one-subscriber scenario: a connection registers on a fresh world, then
one `user_created` event is published at second 1. -/
def demoWorld : World :=
  broadcastRun (registerConn { sse_events := [], sse_connections := [] } 0)
    "user_created" "payload" 1

/-- The session state of the subscriber of `demoWorld`, as `event_stream`
builds it at generator start (before the publish). -/
def demoSession : Session := { qid := 0, lastEventIndex := 0, lastHeartbeat := 0 }

/-- The sequence numbers among a list of emitted items (heartbeats and the
connected event carry none). -/
def seqNums (ems : List Emission) : List Nat :=
  ems.filterMap (fun em =>
    match em with
    | Emission.ev e => some e.id
    | _ => none)

/-- C1: evaluation of the double delivery.  A subscriber registers on an
empty log, one event is published (reaching both its private queue and the
shared `sse_events` list), and the session runs two loop passes: the first
drains the queue and yields the event, but — because the queue path does not
advance `last_event_index` — the second pass's fallback scan yields the very
same event again.  The session emits sequence number 0 twice, refuting
strictly increasing per-subscriber sequence numbers even without any
concurrent interleaving. -/
theorem C1_double_delivery :
    seqNums ((event_stream_iter 6 demoWorld demoSession).1
        ++ (event_stream_iter 7 (event_stream_iter 6 demoWorld demoSession).2.1
              (event_stream_iter 6 demoWorld demoSession).2.2).1) = [0, 0]
    ∧ ¬ List.Chain' (· < ·)
        (seqNums ((event_stream_iter 6 demoWorld demoSession).1
          ++ (event_stream_iter 7 (event_stream_iter 6 demoWorld demoSession).2.1
                (event_stream_iter 6 demoWorld demoSession).2.2).1)) := by
  have h1 : seqNums ((event_stream_iter 6 demoWorld demoSession).1
      ++ (event_stream_iter 7 (event_stream_iter 6 demoWorld demoSession).2.1
            (event_stream_iter 6 demoWorld demoSession).2.2).1) = [0, 0] := by decide
  refine ⟨h1, ?_⟩
  rw [h1]
  intro h
  exact absurd (List.chain'_pair.mp h) (by decide)

theorem remove_connection_not_mem (conns : List Connection) (qid : Nat)
    (h : conns.countP (fun c => c.id == qid) ≤ 1) :
    ∀ c ∈ remove_connection conns qid, c.id ≠ qid := by
  induction conns with
  | nil =>
    intro c hc
    simp [remove_connection] at hc
  | cons a rest ih =>
    intro c hc
    rw [List.countP_cons] at h
    by_cases ha : a.id = qid
    · rw [remove_connection, if_pos ha] at hc
      have hbeq : (a.id == qid) = true := by simp [ha]
      simp only [hbeq, if_true] at h
      have hzero : rest.countP (fun c => c.id == qid) = 0 := by omega
      have hc2 := List.countP_eq_zero.mp hzero c hc
      simpa using hc2
    · rw [remove_connection, if_neg ha] at hc
      rcases List.mem_cons.mp hc with rfl | hc'
      · exact ha
      · have hbeq : (a.id == qid) = false := by simp [ha]
        simp only [hbeq, Bool.false_eq_true, if_false] at h
        have hrest : rest.countP (fun c => c.id == qid) ≤ 1 := by omega
        exact ih hrest c hc'

theorem remove_connection_of_absent (conns : List Connection) (qid : Nat)
    (h : ∀ c ∈ conns, c.id ≠ qid) : remove_connection conns qid = conns := by
  induction conns with
  | nil => rfl
  | cons a rest ih =>
    rw [remove_connection, if_neg (h a (List.mem_cons_self a rest))]
    rw [ih (fun c hc => h c (List.mem_cons_of_mem a hc))]

/-- C6: the cleanup of the `finally` block.  Provided the queue object is
registered at most once (as registration of a fresh `queue.Queue` per
connection guarantees), after the cleanup the registry no longer contains
the subscriber; a second cleanup of the same subscriber is a no-op (the
`ValueError` of the second `remove` is swallowed); and the fan-out pass of
any subsequent publish touches no connection with that identity. -/
theorem C6_cleanup_unregisters (conns : List Connection) (qid : Nat) (entry : EventEntry)
    (h : conns.countP (fun c => c.id == qid) ≤ 1) :
    (∀ c ∈ remove_connection conns qid, c.id ≠ qid)
    ∧ remove_connection (remove_connection conns qid) qid = remove_connection conns qid
    ∧ (∀ c ∈ (markLoop entry 0 (remove_connection conns qid)).1, c.id ≠ qid) := by
  have hgone := remove_connection_not_mem conns qid h
  refine ⟨hgone, remove_connection_of_absent _ _ hgone, ?_⟩
  intro c hc
  rw [markLoop_fst] at hc
  obtain ⟨c0, hc0, rfl⟩ := List.mem_map.mp hc
  have hid : (if c0.alive then pushConn entry c0 else c0).id = c0.id := by
    by_cases hal : c0.alive <;> simp [pushConn, hal]
  rw [hid]
  exact hgone c0 hc0

/-- C6 witness: two live connections, cleanup of connection 0. -/
theorem C6_witness :
    (([⟨0, [], true⟩, ⟨1, [], true⟩] : List Connection).countP (fun c => c.id == 0) ≤ 1)
    ∧ remove_connection (remove_connection [⟨0, [], true⟩, ⟨1, [], true⟩] 0) 0
        = remove_connection [⟨0, [], true⟩, ⟨1, [], true⟩] 0 :=
  ⟨by decide,
    (C6_cleanup_unregisters [⟨0, [], true⟩, ⟨1, [], true⟩] 0
      ⟨"user_created", "payload", 0, 0⟩ (by decide)).2.1⟩

theorem filterMap_get_range {α : Type} (l : List α) :
    (List.range l.length).filterMap (fun i => l.get? i) = l := by
  induction l with
  | nil => rfl
  | cons a t ih =>
    simp only [List.length_cons, List.range_succ_eq_map, List.filterMap_cons,
      List.get?_cons_zero, List.filterMap_map]
    simp only [Function.comp_def, List.get?_cons_succ]
    rw [ih]

theorem event_stream_replay_all (log : List EventEntry) (h1 : 0 < log.length)
    (h2 : log.length ≤ 10) : event_stream_replay log = log := by
  rw [event_stream_replay, if_pos h1]
  have hz : log.length - 10 = 0 := Nat.sub_eq_zero_of_le h2
  rw [hz, Nat.sub_zero, ← List.range_eq_range']
  exact filterMap_get_range log

/-- C7: a subscriber registering right after event E is appended, with no
further publish, replays the last `min(10, count)` retained events; when the
replay window K = 10 covers the whole retained log, that is every retained
event — E, the most recent append, included — in strictly increasing
sequence order. -/
theorem C7_replay_complete (n : Nat) (h1 : 0 < n) (h2 : n ≤ 10) :
    event_stream_replay (publishN n).sse_events = (publishN n).sse_events
    ∧ (∀ E, (publishN n).sse_events.getLast? = some E →
        E ∈ event_stream_replay (publishN n).sse_events)
    ∧ List.Chain' (· < ·)
        ((event_stream_replay (publishN n).sse_events).map EventEntry.id) := by
  have hlen : (publishN n).sse_events.length = n := publishN_len_le n (by omega)
  have hall : event_stream_replay (publishN n).sse_events = (publishN n).sse_events :=
    event_stream_replay_all _ (by omega) (by omega)
  refine ⟨hall, ?_, ?_⟩
  · intro E hE
    rw [hall]
    obtain ⟨hne, rfl⟩ := List.mem_getLast?_eq_getLast (l := (publishN n).sse_events) hE
    exact List.getLast_mem hne
  · rw [hall, publishN_ids_le n (by omega)]
    exact (List.pairwise_lt_range n).chain'

/-- C7 witness: three publishes, then registration and replay. -/
theorem C7_witness :
    0 < 3 ∧ 3 ≤ 10
    ∧ event_stream_replay (publishN 3).sse_events = (publishN 3).sse_events :=
  ⟨by decide, by decide, (C7_replay_complete 3 (by decide) (by decide)).1⟩

/-- C8 counterexample.  The session of `demoWorld` emits a substantive
event at second 29 (queue drain) and another at second 31 (fallback scan),
yet the pass at second 31 also emits a heartbeat — events had been emitted
2 seconds earlier and in that same pass, not 30 seconds earlier.  The code's
timer (app.py line 147) measures time since the last heartbeat, not since
the last emission of any kind. -/
theorem C8_counterexample :
    (event_stream_iter 29 demoWorld demoSession).1
      = [Emission.ev { event := "user_created", data := "payload", timestamp := 1, id := 0 }]
    ∧ (event_stream_iter 31 (event_stream_iter 29 demoWorld demoSession).2.1
          (event_stream_iter 29 demoWorld demoSession).2.2).1
      = [Emission.ev { event := "user_created", data := "payload", timestamp := 1, id := 0 },
         Emission.heartbeat 31]
    ∧ 31 - 29 < 30 :=
  ⟨by decide, by decide, by decide⟩

/-- C8 amended: a Live-state pass emits a heartbeat exactly when the queue
drain finds nothing and more than 30 seconds have elapsed since the last
heartbeat (or session start) — regardless of substantive events emitted in
the meantime, which never reset the timer; a pass that delivers a queued
event skips the heartbeat check (the `continue` at app.py line 129). -/
theorem C8_amended (now : Nat) (w : World) (s : Session) :
    (∃ t, Emission.heartbeat t ∈ (event_stream_iter now w s).1)
      ↔ (queueOf w s.qid = [] ∧ 30 < now - s.lastHeartbeat) := by
  cases hq : queueOf w s.qid with
  | cons e rest =>
    simp only [event_stream_iter, hq]
    constructor
    · rintro ⟨t, ht⟩
      simp at ht
    · rintro ⟨habs, -⟩
      cases habs
  | nil =>
    simp only [event_stream_iter, hq]
    by_cases hlt : s.lastEventIndex < w.sse_events.length <;>
      by_cases hhb : 30 < now - s.lastHeartbeat <;>
      simp [hlt, hhb]


/-- SSE wire framing of app/app.py's `event_stream` (lines 104, 118, 126,
140, 148): every yielded item is built by an f-string of the shape
`event: <kind>` newline `data: <json.dumps(payload)>` blank line. -/
def sseMessage (kind dataJson : String) : String :=
  "event: " ++ kind ++ "\n" ++ "data: " ++ dataJson ++ "\n\n"

/-- SSE wire framing of src/sse_test_server.py's `event_stream` (lines 179,
191, 196).  The f-strings there spell the separator as a doubled backslash
followed by `n`, which in Python denotes a LITERAL backslash-n in the
emitted bytes, not a newline; only the trailing terminator is two real
newlines. -/
def sseMessageTestServer (kind dataJson : String) : String :=
  "event: " ++ kind ++ "\\n" ++ "data: " ++ dataJson ++ "\n\n"

/-- Modelled from the spec (section 6): the wire framing every emitted item
must have — the two lines `event: <kind>` and `data: <JSON payload>`
separated by a newline and terminated by a blank line, with kind among
connected, user_created, user_deleted, heartbeat. -/
def wellFramed (msg : String) : Prop :=
  ∃ kind dataJson,
    kind ∈ ["connected", "user_created", "user_deleted", "heartbeat"] ∧
    msg = "event: " ++ kind ++ "\n" ++ "data: " ++ dataJson ++ "\n\n"

theorem wellFramed_newline_count (msg : String) (h : wellFramed msg) :
    3 ≤ msg.data.count '\n' := by
  obtain ⟨kind, dataJson, -, rfl⟩ := h
  simp only [String.data_append, List.count_append]
  have h1 : List.count '\n' ['\n'] = 1 := by decide
  have h2 : List.count '\n' ['\n', '\n'] = 2 := by decide
  omega

/-- C9: evaluation of the wire framing.  app.py frames every item as the
spec states, for each of the four kinds and any payload; the
sse_test_server.py revision does not — its separator is a literal
backslash-n, so its `connected` message is a single `event:` line (it has
only the two terminating newlines, where a well-framed message has at least
three). -/
theorem C9_framing :
    (∀ dataJson : String,
      wellFramed (sseMessage "connected" dataJson)
      ∧ wellFramed (sseMessage "user_created" dataJson)
      ∧ wellFramed (sseMessage "user_deleted" dataJson)
      ∧ wellFramed (sseMessage "heartbeat" dataJson))
    ∧ ¬ wellFramed (sseMessageTestServer "connected" "payload") := by
  constructor
  · intro dataJson
    exact ⟨⟨"connected", dataJson, by decide, rfl⟩,
      ⟨"user_created", dataJson, by decide, rfl⟩,
      ⟨"user_deleted", dataJson, by decide, rfl⟩,
      ⟨"heartbeat", dataJson, by decide, rfl⟩⟩
  · intro h
    have h3 := wellFramed_newline_count _ h
    have h2 : (sseMessageTestServer "connected" "payload").data.count '\n' = 2 := by
      decide
    omega

/-- C10: the `/events` route performs no authentication check.  Its result —
the registered connection, the session state and the initial emissions — is
identical for any two login-session states, and a publish following the
registration delivers the event to the new subscriber's queue either way;
by contrast `/api/sse-status` (and the user CRUD routes) reject a caller
without the `logged_in` session flag. -/
theorem C10_events_unauthenticated (b1 b2 : Bool) (w : World) (qid now : Nat)
    (e d : String) (t : Nat) :
    events_route b1 w qid now = events_route b2 w qid now
    ∧ ({ id := qid,
         queue := [{ event := e, data := d, timestamp := t, id := w.sse_events.length }],
         alive := true } : Connection)
        ∈ (broadcastRun (events_route b1 w qid now).1 e d t).sse_connections
    ∧ sse_status false w = ApiResult.unauthorized := by
  refine ⟨rfl, ?_, rfl⟩
  have hconns : (broadcastRun (events_route b1 w qid now).1 e d t).sse_connections
      = ((registerConn w qid).sse_connections.filter (fun c => c.alive)).map
          (pushConn { event := e, data := d, timestamp := t, id := w.sse_events.length }) :=
    sweep_mark _ _
  rw [hconns]
  have hmem : ({ id := qid, queue := [], alive := true } : Connection)
      ∈ (registerConn w qid).sse_connections.filter (fun c => c.alive) := by
    apply List.mem_filter.mpr
    exact ⟨List.mem_append_right _ (List.mem_singleton_self _), rfl⟩
  exact List.mem_map_of_mem _ hmem

end QPV
